import Mathlib

/-!
Shallow embedding of `src/memory.rs` of pointermess/rust-virtual-processor:
a flat 4096-cell signed-byte memory store with byte/word accessors and a
register → offset lookup table.

Machine integers are modelled as `Int` with explicit two's-complement
truncation (`toSigned`).  Rust operations that can fail at run time
(out-of-range `Vec` indexing, debug-mode overflow of the checked `i16`
addition in `read16`, `HashMap` indexing on an absent key) are modelled in
the `Except MemErr` monad.
-/

set_option maxRecDepth 10000

/-- Run-time failure modes of the memory core: out-of-range indexing,
`i16` arithmetic overflow, and a register lookup that finds no table entry. -/
inductive MemErr where
  | OutOfBounds
  | Overflow
  | UnknownRegister
deriving DecidableEq

/-- `MemoryOperationSize` from `types.rs`: the two access widths used by
`Memory::read` / `Memory::write`. -/
inductive MemoryOperationSize where
  | Byte
  | Word
deriving DecidableEq

/-- The register identifier catalog, `Register` in `types.rs`.
The `Unknwown` spelling follows the source. -/
inductive Register where
  | AL | BL | CL | DL | AH | BH | CH | DH
  | AX | BX | CX | DX
  | EAX | EBX | ECX | EDX
  | ESP | EBP
  | Unknwown
deriving DecidableEq

/-- Modelled from the spec: `types.rs` (which declares the `Register` enum)
is not among the sources, so the discriminant of each variant is taken from
spec §3 (the catalog listed in order, each identifier with a stable ordinal)
and §4.3 (ordinals 0–7 are the eight 8-bit registers, 8–11 the four 16-bit
registers). This is the value of `register as i32` / `register as i8`. -/
def Register.ordinal : Register → Int
  | .AL => 0
  | .BL => 1
  | .CL => 2
  | .DL => 3
  | .AH => 4
  | .BH => 5
  | .CH => 6
  | .DH => 7
  | .AX => 8
  | .BX => 9
  | .CX => 10
  | .DX => 11
  | .EAX => 12
  | .EBX => 13
  | .ECX => 14
  | .EDX => 15
  | .ESP => 16
  | .EBP => 17
  | .Unknwown => 18

/-- Two's-complement truncation of an integer to `w` bits
(the Rust `as iW` cast). -/
def toSigned (w : Nat) (x : Int) : Int :=
  let m := x % (2 ^ w)
  if m < 2 ^ (w - 1) then m else m - 2 ^ w

/-- Rust `as i8`. -/
def i8cast (x : Int) : Int := toSigned 8 x

/-- Rust `as i16`. -/
def i16cast (x : Int) : Int := toSigned 16 x

/-- Rust `as usize` applied to an `i32` value: reinterpret the
sign-extended value as an unsigned 64-bit integer. -/
def usizeOfI32 (x : Int) : Nat := (x % (2 ^ 64)).toNat

/-- Rust `>>` on a signed integer: arithmetic (floor) shift right. -/
def asr (x : Int) (n : Nat) : Int := Int.fdiv x (2 ^ n)

/-- Rust `<<` on `i16`: shift left, discarding bits shifted out of 16 bits. -/
def i16shl (x : Int) (n : Nat) : Int := i16cast (x * 2 ^ n)

/-- Rust `+` on `i16` in a debug build: the sum when it is representable,
an overflow fault otherwise. -/
def i16checkedAdd (a b : Int) : Except MemErr Int :=
  if -(2 ^ 15) ≤ a + b ∧ a + b < 2 ^ 15 then .ok (a + b) else .error .Overflow

/-- The `Memory` struct: the raw `Vec<i8>` (cells are `i8` values) and the
`HashMap<i32, i32>` register lookup table, modelled as a partial map. -/
structure Memory where
  raw_memory : List Int
  register_lookup_table : Int → Option Int

/-- `HashMap::insert`. -/
def hmInsert (t : Int → Option Int) (k v : Int) : Int → Option Int :=
  fun q => if q = k then some v else t q

/-- The key/value pairs inserted by `Memory::init_register_lookup_table`,
in source order. -/
def registerInsertSequence : List (Int × Int) :=
  [ (Register.AL.ordinal, 3), (Register.BL.ordinal, 7),
    (Register.CL.ordinal, 11), (Register.DL.ordinal, 15),
    (Register.AH.ordinal, 2), (Register.BH.ordinal, 6),
    (Register.CH.ordinal, 10), (Register.DH.ordinal, 14),
    (Register.AX.ordinal, 0), (Register.BX.ordinal, 4),
    (Register.CX.ordinal, 8), (Register.DX.ordinal, 12),
    (Register.EAX.ordinal, 0), (Register.EBX.ordinal, 4),
    (Register.ECX.ordinal, 8), (Register.EDX.ordinal, 12),
    (Register.ESP.ordinal, 16), (Register.EBP.ordinal, 20),
    (Register.Unknwown.ordinal, -1) ]

/-- `Memory::init_register_lookup_table`: fill the table starting from the
empty `HashMap`. -/
def init_register_lookup_table : Int → Option Int :=
  registerInsertSequence.foldl (fun t kv => hmInsert t kv.1 kv.2) (fun _ => none)

/-- `Memory::new` / `Memory::init`: table filled, 4096 cells pushed, all 0. -/
def Memory.new : Memory :=
  { raw_memory := List.replicate 4096 0
  , register_lookup_table := init_register_lookup_table }

/-- `self.raw_memory[position]` as an rvalue: the cell, or the
index-out-of-bounds fault. -/
def Memory.readCell (m : Memory) (p : Nat) : Except MemErr Int :=
  match m.raw_memory.get? p with
  | some b => .ok b
  | none => .error .OutOfBounds

/-- `self.raw_memory[position] = v`: the updated store, or the
index-out-of-bounds fault. -/
def Memory.writeCell (m : Memory) (p : Nat) (v : Int) : Except MemErr Memory :=
  match m.raw_memory.get? p with
  | some _ => .ok { m with raw_memory := m.raw_memory.set p v }
  | none => .error .OutOfBounds

/-- `Memory::read8`. -/
def Memory.read8 (m : Memory) (p : Nat) : Except MemErr Int :=
  m.readCell p

/-- `Memory::read16`:
`(i16::from(self.raw_memory[position]) << 8) + i16::from(self.raw_memory[position + 1])`.
`i16::from` on an `i8` value is the identity on the modelled integer; the
`+` is the checked `i16` addition. -/
def Memory.read16 (m : Memory) (p : Nat) : Except MemErr Int :=
  (m.readCell p).bind fun b0 =>
    (m.readCell (p + 1)).bind fun b1 =>
      i16checkedAdd (i16shl b0 8) b1

/-- `Memory::read`: dispatch on size; the `as i32` widening of an `i8` or
`i16` value is the identity on the modelled integer. -/
def Memory.read (m : Memory) (p : Nat) (size : MemoryOperationSize) :
    Except MemErr Int :=
  match size with
  | .Byte => m.read8 p
  | .Word => m.read16 p

/-- `Memory::write8`. -/
def Memory.write8 (m : Memory) (p : Nat) (v : Int) : Except MemErr Memory :=
  m.writeCell p v

/-- `Memory::write16`: store `(value >> 8) as i8` at `position`, then
`value as i8` at `position + 1`. -/
def Memory.write16 (m : Memory) (p : Nat) (v : Int) : Except MemErr Memory :=
  (m.writeCell p (i8cast (asr v 8))).bind fun m1 =>
    m1.writeCell (p + 1) (i8cast v)

/-- `Memory::write`: dispatch on size, casting the `i32` argument with
`as i8` / `as i16`. -/
def Memory.write (m : Memory) (p : Nat) (v : Int) (size : MemoryOperationSize) :
    Except MemErr Memory :=
  match size with
  | .Byte => m.write8 p (i8cast v)
  | .Word => m.write16 p (i16cast v)

/-- A write followed by a read at the same position and size. -/
def Memory.writeRead (m : Memory) (p : Nat) (v : Int)
    (size : MemoryOperationSize) : Except MemErr Int :=
  (m.write p v size).bind fun m2 => m2.read p size

/-- `Memory::get_register_address`:
`self.register_lookup_table[&(register as i32)] as usize`.  `HashMap`
indexing on an absent key faults; a present value is cast to `usize`. -/
def Memory.get_register_address (m : Memory) (r : Register) :
    Except MemErr Nat :=
  match m.register_lookup_table r.ordinal with
  | some v => .ok (usizeOfI32 v)
  | none => .error .UnknownRegister

/-- `Memory::get_register_size`. -/
def get_register_size (r : Register) : MemoryOperationSize :=
  let val : Int := i8cast r.ordinal
  if 0 ≤ val ∧ val ≤ 7 then .Byte
  else if 8 ≤ val ∧ val ≤ 11 then .Word
  else .Byte

/-! ### Supporting lemmas -/

theorem i8cast_def (x : Int) :
    i8cast x = if x % 256 < 128 then x % 256 else x % 256 - 256 := by
  simp only [i8cast, toSigned]
  norm_num

theorem i16cast_def (x : Int) :
    i16cast x = if x % 65536 < 32768 then x % 65536 else x % 65536 - 65536 := by
  simp only [i16cast, toSigned]
  norm_num

theorem asr8_eq (x : Int) : asr x 8 = x / 256 := by
  rw [asr, Int.fdiv_eq_ediv _ (by norm_num)]
  norm_num

theorem get?_set_self_eq (l : List Int) (i : Nat) (a : Int) (h : i < l.length) :
    (l.set i a).get? i = some a := by
  rw [List.get?_eq_getElem?]
  exact List.getElem?_set_self h

theorem get?_set_ne_eq (l : List Int) (i j : Nat) (a : Int) (h : i ≠ j) :
    (l.set i a).get? j = l.get? j := by
  rw [List.get?_eq_getElem?, List.get?_eq_getElem?]
  exact List.getElem?_set_ne h

theorem Memory.readCell_of_get? (m : Memory) (p : Nat) (x : Int)
    (h : m.raw_memory.get? p = some x) : m.readCell p = .ok x := by
  simp only [Memory.readCell, h]

theorem Memory.readCell_oob (m : Memory) (p : Nat)
    (h : m.raw_memory.length ≤ p) : m.readCell p = .error .OutOfBounds := by
  simp only [Memory.readCell, List.get?_len_le h]

theorem Memory.readCell_ok_of_lt (m : Memory) (p : Nat)
    (h : p < m.raw_memory.length) :
    m.readCell p = .ok (m.raw_memory.get ⟨p, h⟩) := by
  simp only [Memory.readCell, List.get?_eq_get h]

theorem Memory.writeCell_ok (m : Memory) (p : Nat) (v : Int)
    (h : p < m.raw_memory.length) :
    m.writeCell p v = .ok { m with raw_memory := m.raw_memory.set p v } := by
  simp only [Memory.writeCell, List.get?_eq_get h]

theorem Memory.writeCell_oob (m : Memory) (p : Nat) (v : Int)
    (h : m.raw_memory.length ≤ p) : m.writeCell p v = .error .OutOfBounds := by
  simp only [Memory.writeCell, List.get?_len_le h]

theorem Memory.new_length : Memory.new.raw_memory.length = 4096 :=
  List.length_replicate 4096 0

/-! ### Claim theorems -/

/-- C8: for every position `p` in `[0,4095)` and every byte value `v` in
`[-128,127]`, `write(p, v, Byte)` followed by `read(p, Byte)` on the memory
store returns `v`. -/
theorem C8_byte_roundtrip (m : Memory) (p : Nat) (v : Int)
    (hp : p < 4095) (hlen : m.raw_memory.length = 4096)
    (hlo : -128 ≤ v) (hhi : v ≤ 127) :
    m.writeRead p v .Byte = .ok v := by
  have hplen : p < m.raw_memory.length := by omega
  have hv : i8cast v = v := by rw [i8cast_def]; omega
  simp only [Memory.writeRead, Memory.write, Memory.write8,
    Memory.writeCell_ok m p _ hplen, Except.bind, Memory.read, Memory.read8]
  rw [Memory.readCell_of_get? _ p (i8cast v) (get?_set_self_eq _ p _ hplen), hv]

/-- Witness for C8: on a fresh store, writing -5 at position 5 as a Byte and
reading it back returns -5. -/
theorem C8_byte_roundtrip_witness :
    Memory.writeRead Memory.new 5 (-5) .Byte = .ok (-5) :=
  C8_byte_roundtrip Memory.new 5 (-5) (by norm_num) Memory.new_length
    (by norm_num) (by norm_num)

/-- C1 fails on the code: writing 255 (`0x00FF`) as a Word at position 0 and
reading it back as a Word returns -1, not 255, because `read16` sign-extends
the low cell (`i16::from` on the `i8` value -1) before adding it to the
shifted high cell. -/
theorem C1_word_roundtrip_failing_input :
    Memory.writeRead Memory.new 0 255 .Word = .ok (-1) := by rfl

/-- C3 fails on the code: looking up the address of the `Unknwown` register
does not fail; it returns the sentinel -1 cast to `usize`,
i.e. 18446744073709551615, to the caller as an ordinary offset. -/
theorem C3_unknown_register_silent_sentinel :
    Memory.new.get_register_address .Unknwown = .ok (2 ^ 64 - 1) := by rfl

/-- C4 fails on the code for Word reads: with cell 0 holding 0 and cell 1
holding -1 (`0xFF`), big-endian composition would give `0x00FF` = 255, but
`read(0, Word)` returns -1 because the low cell is sign-extended before the
addition. -/
theorem C4_word_read_failing_input :
    ((Memory.new.write 1 255 .Byte).bind fun m2 => m2.read 0 .Word) =
      .ok (-1) := by rfl

/-- C10: there is an in-range position and a 16-bit value — position 0 and
`0x8080` = -32640, stored as the two cells -128, -128 — for which
`write(p, v, Word)` followed by `read(p, Word)` faults: the checked `i16`
addition in `read16` overflows (-32768 + -128 is not representable). -/
theorem C10_word_read_overflow_fault :
    ∃ p : Nat, ∃ v : Int, p < 4094 ∧ -32768 ≤ v ∧ v < 32768 ∧
      Memory.writeRead Memory.new p v .Word = .error .Overflow :=
  ⟨0, -32640, by norm_num, by norm_num, by norm_num, by rfl⟩

/-- C6: on a freshly constructed store the address lookup returns exactly the
literal offsets of the table built by `init_register_lookup_table`:
AL=3, BL=7, CL=11, DL=15, AH=2, BH=6, CH=10, DH=14, AX=0, BX=4, CX=8, DX=12,
EAX=0, EBX=4, ECX=8, EDX=12, ESP=16, EBP=20. -/
theorem C6_register_address_table :
    Memory.new.get_register_address .AL = .ok 3 ∧
    Memory.new.get_register_address .BL = .ok 7 ∧
    Memory.new.get_register_address .CL = .ok 11 ∧
    Memory.new.get_register_address .DL = .ok 15 ∧
    Memory.new.get_register_address .AH = .ok 2 ∧
    Memory.new.get_register_address .BH = .ok 6 ∧
    Memory.new.get_register_address .CH = .ok 10 ∧
    Memory.new.get_register_address .DH = .ok 14 ∧
    Memory.new.get_register_address .AX = .ok 0 ∧
    Memory.new.get_register_address .BX = .ok 4 ∧
    Memory.new.get_register_address .CX = .ok 8 ∧
    Memory.new.get_register_address .DX = .ok 12 ∧
    Memory.new.get_register_address .EAX = .ok 0 ∧
    Memory.new.get_register_address .EBX = .ok 4 ∧
    Memory.new.get_register_address .ECX = .ok 8 ∧
    Memory.new.get_register_address .EDX = .ok 12 ∧
    Memory.new.get_register_address .ESP = .ok 16 ∧
    Memory.new.get_register_address .EBP = .ok 20 := by
  refine ⟨?_, ?_, ?_, ?_, ?_, ?_, ?_, ?_, ?_, ?_, ?_, ?_, ?_, ?_, ?_, ?_,
    ?_, ?_⟩ <;> rfl

theorem i8cast_emod (x : Int) : i8cast x % 256 = x % 256 := by
  rw [i8cast_def]
  split <;> omega

theorem i16cast_emod (x : Int) : i16cast x % 65536 = x % 65536 := by
  rw [i16cast_def]
  split <;> omega

theorem i8cast_bounds (x : Int) : -128 ≤ i8cast x ∧ i8cast x < 128 := by
  rw [i8cast_def]
  have h1 : 0 ≤ x % 256 := Int.emod_nonneg x (by norm_num)
  have h2 : x % 256 < 256 := Int.emod_lt_of_pos x (by norm_num)
  split <;> omega

theorem Memory.write16_ok (m : Memory) (p : Nat) (v : Int)
    (h : p + 1 < m.raw_memory.length) :
    m.write16 p v = .ok { m with raw_memory :=
      (m.raw_memory.set p (i8cast (asr v 8))).set (p + 1) (i8cast v) } := by
  have h1 : p < m.raw_memory.length := by omega
  have e2 := Memory.writeCell_ok
    { m with raw_memory := m.raw_memory.set p (i8cast (asr v 8)) }
    (p + 1) (i8cast v)
    (by show p + 1 < (m.raw_memory.set p (i8cast (asr v 8))).length
        rw [List.length_set]; omega)
  simp only [Memory.write16, Memory.writeCell_ok m p _ h1, Except.bind, e2]

theorem Memory.write16_oob2 (m : Memory) (p : Nat) (v : Int)
    (h1 : p < m.raw_memory.length) (h2 : m.raw_memory.length ≤ p + 1) :
    m.write16 p v = .error .OutOfBounds := by
  have e2 := Memory.writeCell_oob
    { m with raw_memory := m.raw_memory.set p (i8cast (asr v 8)) }
    (p + 1) (i8cast v)
    (by show (m.raw_memory.set p (i8cast (asr v 8))).length ≤ p + 1
        rw [List.length_set]; omega)
  simp only [Memory.write16, Memory.writeCell_ok m p _ h1, Except.bind, e2]

/-- C5: for every in-range position and every 32-bit value `v`,
`write(p, v, Byte)` stores at cell `p` a byte with the low 8 bits of `v`
(as a signed cell), and `write(p, v, Word)` stores at cells `p` and `p+1`
the high and low byte of the low 16 bits of `v`: the two stored cells
recompose big-endian to `v % 65536`. -/
theorem C5_write_semantics (m : Memory) (p : Nat) (v : Int)
    (hlen : m.raw_memory.length = 4096) :
    (p < 4096 →
      ∃ b, m.write p v .Byte =
          .ok { m with raw_memory := m.raw_memory.set p b } ∧
        -128 ≤ b ∧ b < 128 ∧ b % 256 = v % 256) ∧
    (p + 1 < 4096 →
      ∃ b0 b1, m.write p v .Word =
          .ok { m with raw_memory := (m.raw_memory.set p b0).set (p + 1) b1 } ∧
        -128 ≤ b0 ∧ b0 < 128 ∧ -128 ≤ b1 ∧ b1 < 128 ∧
        (b0 % 256) * 256 + b1 % 256 = v % 65536) := by
  constructor
  · intro hp
    refine ⟨i8cast v, ?_, (i8cast_bounds v).1, (i8cast_bounds v).2,
      i8cast_emod v⟩
    simp only [Memory.write, Memory.write8]
    exact Memory.writeCell_ok m p _ (by omega)
  · intro hp1
    have h1 : p < m.raw_memory.length := by omega
    have h2 : p + 1 <
        (m.raw_memory.set p (i8cast (asr (i16cast v) 8))).length := by
      rw [List.length_set]; omega
    refine ⟨i8cast (asr (i16cast v) 8), i8cast (i16cast v), ?_,
      (i8cast_bounds _).1, (i8cast_bounds _).2,
      (i8cast_bounds _).1, (i8cast_bounds _).2, ?_⟩
    · simp only [Memory.write, Memory.write16, Memory.writeCell_ok m p _ h1,
        Except.bind]
      exact Memory.writeCell_ok _ (p + 1) _ h2
    · have hb0 : i8cast (asr (i16cast v) 8) % 256 =
          (i16cast v / 256) % 256 := by
        rw [asr8_eq, i8cast_emod]
      have hb1 : i8cast (i16cast v) % 256 = i16cast v % 256 := i8cast_emod _
      have hw : i16cast v % 65536 = v % 65536 := i16cast_emod v
      rw [hb0, hb1]
      omega

/-- Witness for C5 at position 0 and value 300 on a fresh store
(the spec §8 round-trip scenario: `300 = 0x012C`, high byte 1, low byte 44). -/
theorem C5_write_semantics_witness :
    ∃ b0 b1, Memory.new.write 0 300 .Word =
        .ok { Memory.new with raw_memory :=
          (Memory.new.raw_memory.set 0 b0).set (0 + 1) b1 } ∧
      -128 ≤ b0 ∧ b0 < 128 ∧ -128 ≤ b1 ∧ b1 < 128 ∧
      (b0 % 256) * 256 + b1 % 256 = 300 % 65536 :=
  (C5_write_semantics Memory.new 0 300 Memory.new_length).2 (by norm_num)

/-- C2: every `read`/`write` at position 4096 or beyond fails out-of-bounds
(the Rust code faults on the index; the model reports it as `OutOfBounds`);
position 4095 with Byte succeeds for both read and write; position 4095 with
Word fails because the second cell (4096) is out of range; in-range Byte
operations and Word writes succeed, and an in-range Word read never fails
with the bounds error. -/
theorem C2_bounds_checking (m : Memory) (hlen : m.raw_memory.length = 4096) :
    (∀ p s, 4096 ≤ p → m.read p s = .error .OutOfBounds) ∧
    (∀ p v s, 4096 ≤ p → m.write p v s = .error .OutOfBounds) ∧
    (∃ x, m.read 4095 .Byte = .ok x) ∧
    (∀ v, ∃ m2, m.write 4095 v .Byte = .ok m2) ∧
    (m.read 4095 .Word = .error .OutOfBounds) ∧
    (∀ v, m.write 4095 v .Word = .error .OutOfBounds) ∧
    (∀ p, p < 4096 → ∃ x, m.read p .Byte = .ok x) ∧
    (∀ p v, p < 4096 → ∃ m2, m.write p v .Byte = .ok m2) ∧
    (∀ p v, p + 1 < 4096 → ∃ m2, m.write p v .Word = .ok m2) ∧
    (∀ p, p + 1 < 4096 → m.read p .Word ≠ .error .OutOfBounds) := by
  refine ⟨?_, ?_, ?_, ?_, ?_, ?_, ?_, ?_, ?_, ?_⟩
  · intro p s hp
    have ho : m.raw_memory.length ≤ p := by omega
    cases s
    · simp only [Memory.read, Memory.read8, Memory.readCell_oob m p ho]
    · simp only [Memory.read, Memory.read16, Memory.readCell_oob m p ho,
        Except.bind]
  · intro p v s hp
    have ho : m.raw_memory.length ≤ p := by omega
    cases s
    · simp only [Memory.write, Memory.write8, Memory.writeCell_oob m p _ ho]
    · simp only [Memory.write, Memory.write16, Memory.writeCell_oob m p _ ho,
        Except.bind]
  · have hb : (4095 : Nat) < m.raw_memory.length := by omega
    exact ⟨_, Memory.readCell_ok_of_lt m 4095 hb⟩
  · intro v
    have hb : (4095 : Nat) < m.raw_memory.length := by omega
    exact ⟨_, Memory.writeCell_ok m 4095 (i8cast v) hb⟩
  · have h1 : (4095 : Nat) < m.raw_memory.length := by omega
    have h2 : m.raw_memory.length ≤ 4095 + 1 := by omega
    simp only [Memory.read, Memory.read16, Memory.readCell_ok_of_lt m 4095 h1,
      Memory.readCell_oob m (4095 + 1) h2, Except.bind]
  · intro v
    exact Memory.write16_oob2 m 4095 (i16cast v) (by omega) (by omega)
  · intro p hp
    have hb : p < m.raw_memory.length := by omega
    exact ⟨_, Memory.readCell_ok_of_lt m p hb⟩
  · intro p v hp
    have hb : p < m.raw_memory.length := by omega
    exact ⟨_, Memory.writeCell_ok m p (i8cast v) hb⟩
  · intro p v hp
    have hb : p + 1 < m.raw_memory.length := by omega
    exact ⟨_, Memory.write16_ok m p (i16cast v) hb⟩
  · intro p hp
    simp only [Memory.read, Memory.read16,
      Memory.readCell_ok_of_lt m p (by omega),
      Memory.readCell_ok_of_lt m (p + 1) (by omega), Except.bind,
      i16checkedAdd]
    split <;> simp

/-- Witness for C2: on a fresh store, a Byte read at position 4096 fails
out-of-bounds. -/
theorem C2_bounds_checking_witness :
    Memory.new.read 4096 .Byte = .error .OutOfBounds :=
  (C2_bounds_checking Memory.new Memory.new_length).1 4096 .Byte (by norm_num)

/-- C7: the size classifier returns Byte for catalog ordinals 0–7, Word for
ordinals 8–11, and Byte for every larger ordinal (the 32-bit registers, the
pointer registers and `Unknwown`) by default fallthrough. -/
theorem C7_register_size_rule (r : Register) :
    (0 ≤ r.ordinal ∧ r.ordinal ≤ 7 → get_register_size r = .Byte) ∧
    (8 ≤ r.ordinal ∧ r.ordinal ≤ 11 → get_register_size r = .Word) ∧
    (11 < r.ordinal → get_register_size r = .Byte) := by
  cases r <;> decide

/-- Witness for C7: AX (ordinal 8) classifies as Word and EAX (ordinal 12)
falls through to Byte. -/
theorem C7_register_size_rule_witness :
    get_register_size .AX = .Word ∧ get_register_size .EAX = .Byte :=
  ⟨(C7_register_size_rule .AX).2.1 (by decide),
    (C7_register_size_rule .EAX).2.2 (by decide)⟩

/-- C9: in-range writes succeed, preserve the store length of 4096 cells and
the register table, and are frame-local: a Byte write changes no cell other
than `p`, a Word write none other than `p` and `p+1` (reads take `&self` and
are modelled as pure functions, so they change nothing). -/
theorem C9_frame_conditions (m : Memory) (p : Nat) (v : Int)
    (hlen : m.raw_memory.length = 4096) :
    (p < 4096 → ∃ m2, m.write p v .Byte = .ok m2 ∧
      m2.raw_memory.length = 4096 ∧
      m2.register_lookup_table = m.register_lookup_table ∧
      ∀ i, i ≠ p → m2.raw_memory.get? i = m.raw_memory.get? i) ∧
    (p + 1 < 4096 → ∃ m2, m.write p v .Word = .ok m2 ∧
      m2.raw_memory.length = 4096 ∧
      m2.register_lookup_table = m.register_lookup_table ∧
      ∀ i, i ≠ p → i ≠ p + 1 →
        m2.raw_memory.get? i = m.raw_memory.get? i) := by
  constructor
  · intro hp
    have hb : p < m.raw_memory.length := by omega
    refine ⟨{ m with raw_memory := m.raw_memory.set p (i8cast v) },
      Memory.writeCell_ok m p (i8cast v) hb, ?_, rfl, ?_⟩
    · show (m.raw_memory.set p (i8cast v)).length = 4096
      rw [List.length_set]; omega
    · intro i hi
      show (m.raw_memory.set p (i8cast v)).get? i = m.raw_memory.get? i
      exact get?_set_ne_eq _ p i _ fun h => hi h.symm
  · intro hp1
    have hb : p + 1 < m.raw_memory.length := by omega
    refine ⟨_, Memory.write16_ok m p (i16cast v) hb, ?_, rfl, ?_⟩
    · show ((m.raw_memory.set p (i8cast (asr (i16cast v) 8))).set (p + 1)
        (i8cast (i16cast v))).length = 4096
      rw [List.length_set, List.length_set]; omega
    · intro i hip hip1
      show ((m.raw_memory.set p (i8cast (asr (i16cast v) 8))).set (p + 1)
        (i8cast (i16cast v))).get? i = m.raw_memory.get? i
      rw [get?_set_ne_eq _ (p + 1) i _ fun h => hip1 h.symm,
        get?_set_ne_eq _ p i _ fun h => hip h.symm]

/-- Witness for C9: a Byte write of 7 at position 0 of a fresh store keeps
length 4096, the register table, and every other cell. -/
theorem C9_frame_conditions_witness :
    ∃ m2, Memory.new.write 0 7 .Byte = .ok m2 ∧
      m2.raw_memory.length = 4096 ∧
      m2.register_lookup_table = Memory.new.register_lookup_table ∧
      ∀ i, i ≠ 0 → m2.raw_memory.get? i = Memory.new.raw_memory.get? i :=
  (C9_frame_conditions Memory.new 0 7 Memory.new_length).1 (by norm_num)
